import Mathlib

/-!
Verification of the implied-timescale sweep of the PyEMMA workshop notebooks.

The notebook cell that sweeps over lag times (03-msm-estimation-validation,
cell 7) builds, for every lag in a list, a sliding-window transition-count
model from the discrete trajectories, restricts it to its largest connected
component, fits a maximum-likelihood MSM and collects the first `k` implied
timescales.  The helper `implied_timescales_msm` from the workshop's
`timescales` module wraps that pipeline with input validation, per-lag
failure handling, Bayesian error bars and optional parallelism; the module
itself is absent from the supplied files, so the helper is modelled from the
specification.  The numerical estimators (transition counting is embedded
concretely; eigenvalue-based timescale extraction is an external library
call) enter through a narrow backend interface as the specification's design
notes prescribe.
-/

namespace ImpliedTimescales

/-- A discrete trajectory: an ordered sequence of non-negative integer state
labels, simulation-time order preserved. -/
abbrev DTraj := List Nat

/-- Counting mode of the transition-count estimator, the two modes used in
the notebooks: `TransitionCountEstimator(lag, "sliding")` and
`TransitionCountEstimator(lag, "effective")`. -/
inductive CountingMode where
  | sliding
  | effective
deriving DecidableEq

/-- Number of states of the full count model: one past the largest state
label occurring in any trajectory, `0` when no label occurs. -/
def nStatesFull (trajs : List DTraj) : Nat :=
  match trajs.foldl (fun acc t => acc ++ t) [] with
  | [] => 0
  | x :: xs => xs.foldl max x + 1

/-- The transition pairs of one trajectory at a given lag: sliding-window
counting pairs every frame `t` with frame `t + lag`. -/
def lagPairs (t : DTraj) (lag : Nat) : List (Nat × Nat) :=
  t.zip (t.drop lag)

/-- Raw sliding-window transition count from state `i` to state `j` at the
given lag, summed over all trajectories. -/
def rawCountAt (trajs : List DTraj) (lag : Nat) (i j : Nat) : Nat :=
  (trajs.foldl (fun acc t => acc ++ lagPairs t lag) []).count (i, j)

/-- A transition count model: full state count, lag, counting mode, the raw
sliding-window count matrix and the currently selected states. -/
structure CountModel where
  nStates : Nat
  lag : Nat
  mode : CountingMode
  rawCount : Nat → Nat → Nat
  states : List Nat

/-- The count matrix of the model.  Modelled from the spec: sliding-window
counts are the raw pair counts; effective counting applies the overlap
correction, dividing the sliding counts by the lag. -/
def CountModel.count (cm : CountModel) (i j : Nat) : ℚ :=
  match cm.mode with
  | .sliding => (cm.rawCount i j : ℚ)
  | .effective => (cm.rawCount i j : ℚ) / (cm.lag : ℚ)

/-- Build the transition count model at a lag from all trajectories; the
selected states are initially all states. -/
def countModelAt (trajs : List DTraj) (counting_mode : CountingMode) (lag : Nat) : CountModel :=
  ⟨nStatesFull trajs, lag, counting_mode, rawCountAt trajs lag,
    List.range (nStatesFull trajs)⟩

/-- Whether some state in `s` has a counted transition into `j`.  The zero
test is taken on the raw counts; dividing by a positive lag does not change
which entries are nonzero. -/
def hasEdgeFrom (cm : CountModel) (s : List Nat) (j : Nat) : Bool :=
  s.any (fun i => cm.rawCount i j != 0)

/-- One expansion step of the reachable set along counted transitions. -/
def stepReach (cm : CountModel) (s : List Nat) : List Nat :=
  (List.range cm.nStates).filter (fun j => s.contains j || hasEdgeFrom cm s j)

/-- Iterate the expansion step. -/
def iterSteps (cm : CountModel) : Nat → List Nat → List Nat
  | 0, s => s
  | n + 1, s => iterSteps cm n (stepReach cm s)

/-- States reachable from `i` along counted transitions: `nStates` expansion
steps reach the fixpoint, since the set can grow at most `nStates` times. -/
def reachSet (cm : CountModel) (i : Nat) : List Nat :=
  iterSteps cm cm.nStates [i]

/-- Whether `j` is reachable from `i` along counted transitions. -/
def reachable (cm : CountModel) (i j : Nat) : Bool :=
  (reachSet cm i).contains j

/-- The strongly connected component of state `i`: states reachable from and
reaching `i` (always containing `i` itself). -/
def sccOf (cm : CountModel) (i : Nat) : List Nat :=
  (List.range cm.nStates).filter (fun j => reachable cm i j && reachable cm j i)

/-- The largest strongly connected component of the count graph, by state
count; the first one found wins ties. -/
def largestSCC (cm : CountModel) : List Nat :=
  (List.range cm.nStates).foldl
    (fun best i => if best.length < (sccOf cm i).length then sccOf cm i else best) []

/-- Restrict the count model to its largest connected component, as
`counts.submodel_largest()` does in the notebook. -/
def CountModel.submodel_largest (cm : CountModel) : CountModel :=
  { cm with states := largestSCC cm }

/-- Modelled from the spec: the narrow interface to the external MSM
estimator (deeptime's `MaximumLikelihoodMSM` / `BayesianMSM`, out of scope
as numerical code): a point-estimate timescale capability and a resampled
capability returning, per rank, lower bound, central estimate and upper
bound. -/
structure MSMBackend where
  timescales : CountModel → Nat → List ℚ
  bayesTimescales : CountModel → Nat → List (ℚ × ℚ × ℚ)

/-- Modelled from the spec: the contract of the external estimator.  On a
count model whose selected component has `n` states and for a requested rank
count `k`, it returns `min k (n - 1)` non-stationary timescales, finite,
positive and strictly decreasing (the stationary, infinite timescale is
excluded); the Bayesian capability returns the same number of ranks with
lower bound ≤ central estimate ≤ upper bound. -/
structure BackendSpec (B : MSMBackend) : Prop where
  ts_length : ∀ cm k, (B.timescales cm k).length = min k (cm.states.length - 1)
  ts_sorted : ∀ cm k, List.Chain' (· > ·) (B.timescales cm k)
  ts_pos : ∀ cm k t, t ∈ B.timescales cm k → 0 < t
  bayes_length : ∀ cm k,
    (B.bayesTimescales cm k).length = min k (cm.states.length - 1)
  bayes_bounds : ∀ cm k s, s ∈ B.bayesTimescales cm k →
    s.1 ≤ s.2.1 ∧ s.2.1 ≤ s.2.2

/-- Reason a single lag time could not be processed.  Modelled from the
spec's error taxonomy. -/
inductive FailReason where
  | lagExceedsData
  | connectivityCollapse
deriving DecidableEq

/-- One entry of the sweep result: the lag time, its point timescales, the
optional Bayesian statistics (lower, central, upper per rank) and the
optional recorded failure reason. -/
structure Entry where
  lagtime : Int
  its : List ℚ
  bayesStats : Option (List (ℚ × ℚ × ℚ))
  failure : Option FailReason
deriving DecidableEq

/-- Hard errors of the sweep.  Modelled from the spec's error taxonomy:
input-validation errors and total failure. -/
inductive SweepError where
  | emptyTrajectories
  | emptyLags
  | nonPositiveLag
  | nonPositiveK
  | nonPositiveJobs
  | allLagsFailed (failures : List (Int × FailReason))
deriving DecidableEq

/-- Length of the shortest trajectory (`0` for an empty trajectory list). -/
def shortestLen (trajs : List DTraj) : Nat :=
  match trajs.map List.length with
  | [] => 0
  | x :: xs => xs.foldl min x

/-- Modelled from the spec: processing of a single lag time.  A lag larger
than the shortest trajectory length, or a largest connected component of
fewer than two states, yields a zero-timescale entry with a recorded
failure reason; otherwise the restricted count model is handed to the
estimator and the first `k` timescales (with Bayesian statistics when
requested) are recorded. -/
def processLag (B : MSMBackend) (trajs : List DTraj) (counting_mode : CountingMode)
    (k : Nat) (bayesian : Bool) (lag : Int) : Entry :=
  if shortestLen trajs < lag.toNat then
    ⟨lag, [], none, some .lagExceedsData⟩
  else
    let cm := (countModelAt trajs counting_mode lag.toNat).submodel_largest
    if cm.states.length < 2 then
      ⟨lag, [], none, some .connectivityCollapse⟩
    else
      ⟨lag, B.timescales cm k,
        if bayesian then some (B.bayesTimescales cm k) else none, none⟩

/-- Modelled from the spec: up-front input validation, checked before any
estimation work — empty trajectory set, empty lag list, non-positive lag
time, non-positive rank count, non-positive worker count. -/
def validate (trajs : List DTraj) (lagtimes : List Int) (nits n_jobs : Int) :
    Option SweepError :=
  if trajs.isEmpty then some .emptyTrajectories
  else if lagtimes.isEmpty then some .emptyLags
  else if lagtimes.any (fun l => decide (l ≤ 0)) then some .nonPositiveLag
  else if nits ≤ 0 then some .nonPositiveK
  else if n_jobs ≤ 0 then some .nonPositiveJobs
  else none

/-- The recorded failures of a list of entries, pairing each failed lag time
with its reason. -/
def failuresOf (entries : List Entry) : List (Int × FailReason) :=
  entries.filterMap (fun e => e.failure.map (fun r => (e.lagtime, r)))

/-- Modelled from the spec: `implied_timescales_msm` from the workshop's
`timescales` helper module, which is absent from the supplied files.  After
validation it processes every lag time in input order, keeps per-lag
failures as zero-timescale entries, and raises a hard error only when every
lag time failed. -/
def implied_timescales_msm (B : MSMBackend) (dtrajs : List DTraj)
    (lagtimes : List Int) (nits : Int) (bayesian : Bool) (n_jobs : Int)
    (counting_mode : CountingMode := .sliding) :
    Except SweepError (List Entry) :=
  match validate dtrajs lagtimes nits n_jobs with
  | some e => .error e
  | none =>
    let entries := lagtimes.map (processLag B dtrajs counting_mode nits.toNat bayesian)
    if entries.all (fun e => e.failure.isSome) then
      .error (.allLagsFailed (failuresOf entries))
    else
      .ok entries

/-- Modelled from the spec's concurrency design: workers complete in the
order given by `order`, each writing its entry into the slot of its original
lag-time index of a preallocated output array. -/
def runSchedule (job : Nat → Entry) (n : Nat) (order : List Nat) :
    List (Option Entry) :=
  order.foldl (fun slots i => slots.set i (some (job i))) (List.replicate n none)

/-- Modelled from the spec: the sweep with explicit concurrency.  `order` is
the completion order of the worker pool (any permutation of the lag-time
indices); final assembly reads the index-addressed slots in original
order. -/
def implied_timescales_msm_par (B : MSMBackend) (dtrajs : List DTraj)
    (lagtimes : List Int) (nits : Int) (bayesian : Bool) (n_jobs : Int)
    (order : List Nat) (counting_mode : CountingMode := .sliding) :
    Except SweepError (List Entry) :=
  match validate dtrajs lagtimes nits n_jobs with
  | some e => .error e
  | none =>
    let job := fun i =>
      processLag B dtrajs counting_mode nits.toNat bayesian (lagtimes.getD i 0)
    let entries := (runSchedule job lagtimes.length order).reduceOption
    if entries.all (fun e => e.failure.isSome) then
      .error (.allLagsFailed (failuresOf entries))
    else
      .ok entries

/-- The reference pipeline of notebook cell 7: for every lag, a
sliding-window count model from all trajectories, restricted to the largest
connected component, fitted and asked for the first `k` timescales. -/
def notebookTimescaleSweep (B : MSMBackend) (dtrajs : List DTraj)
    (lags : List Int) (k : Nat) : List (List ℚ) :=
  lags.map (fun lag =>
    B.timescales ((countModelAt dtrajs .sliding lag.toNat).submodel_largest) k)

/-- Caller-visible state for the frame claim: the caller-owned inputs and
the result slot the sweep writes. -/
structure SweepState where
  trajectories : List DTraj
  lagtimes : List Int
  result : Option (Except SweepError (List Entry))

/-- The sweep as a state transformer: it reads the caller-owned inputs and
writes only the freshly computed result. -/
def runSweep (B : MSMBackend) (nits : Int) (bayesian : Bool) (n_jobs : Int)
    (counting_mode : CountingMode) (σ : SweepState) : SweepState :=
  { σ with result := some (implied_timescales_msm B σ.trajectories σ.lagtimes
      nits bayesian n_jobs counting_mode) }

/-- Modelled from the spec: a concrete instance of the estimator interface,
used to run the sweep on concrete inputs.  On a component of `n` states it
returns `min k (n - 1)` strictly decreasing positive timescales, and
Bayesian bounds one unit around the central estimate. -/
def specBackend : MSMBackend where
  timescales cm k :=
    (List.range (min k (cm.states.length - 1))).map
      (fun r => ((cm.states.length - r : Nat) : ℚ))
  bayesTimescales cm k :=
    (List.range (min k (cm.states.length - 1))).map
      (fun r => (((cm.states.length - r - 1 : Nat) : ℚ),
        ((cm.states.length - r : Nat) : ℚ),
        ((cm.states.length - r + 1 : Nat) : ℚ)))

/-- Whether an `Except` value is an error. -/
def isError {ε α : Type} : Except ε α → Bool
  | .error _ => true
  | .ok _ => false

example : implied_timescales_msm specBackend [[0, 1, 1, 0], [0]] [1, 2] 1 false 1
    .sliding =
    .ok [⟨1, [2], none, none⟩, ⟨2, [], none, some .lagExceedsData⟩] := rfl

example : implied_timescales_msm specBackend [[0, 1, 1, 0], [0]] [2] 1 false 1
    .sliding = .error (.allLagsFailed [(2, .lagExceedsData)]) := rfl

example : implied_timescales_msm specBackend [[0, 1, 1, 0]] [] 1 false 1
    .sliding = .error .emptyLags := rfl

example : implied_timescales_msm_par specBackend [[0, 1, 1, 0]] [1] 1 false 1 [0]
    .sliding = .ok [⟨1, [2], none, none⟩] := rfl

example : implied_timescales_msm specBackend [[0, 1, 1, 0]] [1] 1 true 1
    .sliding = .ok [⟨1, [2], some [(1, 2, 3)], none⟩] := rfl

theorem processLag_lagtime (B : MSMBackend) (d : List DTraj) (m : CountingMode)
    (k : Nat) (b : Bool) (lag : Int) : (processLag B d m k b lag).lagtime = lag := by
  by_cases h1 : shortestLen d < lag.toNat
  · simp [processLag, h1]
  · by_cases h2 : ((countModelAt d m lag.toNat).submodel_largest).states.length < 2
    · simp [processLag, h1, h2]
    · simp [processLag, h1, h2]

theorem processLag_failed_its (B : MSMBackend) (d : List DTraj) (m : CountingMode)
    (k : Nat) (b : Bool) (lag : Int)
    (h : (processLag B d m k b lag).failure.isSome = true) :
    (processLag B d m k b lag).its = [] := by
  by_cases h1 : shortestLen d < lag.toNat
  · simp [processLag, h1]
  · by_cases h2 : ((countModelAt d m lag.toNat).submodel_largest).states.length < 2
    · simp [processLag, h1, h2]
    · simp [processLag, h1, h2] at h

theorem processLag_not_failed (B : MSMBackend) (d : List DTraj) (m : CountingMode)
    (k : Nat) (b : Bool) (lag : Int)
    (h1 : ¬ shortestLen d < lag.toNat)
    (h2 : ¬ ((countModelAt d m lag.toNat).submodel_largest).states.length < 2) :
    processLag B d m k b lag =
      ⟨lag, B.timescales ((countModelAt d m lag.toNat).submodel_largest) k,
        if b then
          some (B.bayesTimescales ((countModelAt d m lag.toNat).submodel_largest) k)
        else none, none⟩ := by
  simp [processLag, h1, h2]

theorem implied_ok (B : MSMBackend) (d : List DTraj) (l : List Int) (k : Int)
    (b : Bool) (j : Int) (m : CountingMode) (res : List Entry)
    (h : implied_timescales_msm B d l k b j m = .ok res) :
    validate d l k j = none ∧ res = l.map (processLag B d m k.toNat b) ∧
      ¬ (l.map (processLag B d m k.toNat b)).all (fun e => e.failure.isSome) = true := by
  rw [implied_timescales_msm] at h
  cases hv : validate d l k j with
  | some e => rw [hv] at h; exact absurd h (by simp)
  | none =>
    rw [hv] at h
    simp only at h
    by_cases hall :
        (l.map (processLag B d m k.toNat b)).all (fun e => e.failure.isSome) = true
    · rw [if_pos hall] at h; exact absurd h (by simp)
    · rw [if_neg hall] at h
      cases h
      exact ⟨rfl, rfl, hall⟩

theorem foldl_set_length {α : Type} (g : Nat → α) :
    ∀ (order : List Nat) (slots : List α),
      (order.foldl (fun s i => s.set i (g i)) slots).length = slots.length
  | [], _ => rfl
  | j :: rest, slots => by
    rw [List.foldl_cons, foldl_set_length g rest, List.length_set]

theorem foldl_set_get_not_mem {α : Type} (g : Nat → α) :
    ∀ (order : List Nat) (slots : List α) (i : Nat), i ∉ order →
      (order.foldl (fun s j => s.set j (g j)) slots)[i]? = slots[i]?
  | [], _, _, _ => rfl
  | j :: rest, slots, i, h => by
    rw [List.foldl_cons,
      foldl_set_get_not_mem g rest _ i (fun hm => h (List.mem_cons_of_mem _ hm))]
    exact List.getElem?_set_ne (fun hj => h (by rw [hj]; exact List.mem_cons_self _ _))

theorem foldl_set_get_mem {α : Type} (g : Nat → α) :
    ∀ (order : List Nat) (slots : List α) (i : Nat), i ∈ order → i < slots.length →
      (order.foldl (fun s j => s.set j (g j)) slots)[i]? = some (g i)
  | [], _, _, hmem, _ => absurd hmem (List.not_mem_nil _)
  | j :: rest, slots, i, hmem, hlen => by
    rw [List.foldl_cons]
    by_cases hr : i ∈ rest
    · exact foldl_set_get_mem g rest _ i hr (by rw [List.length_set]; exact hlen)
    · have hij : i = j := by
        rcases List.mem_cons.mp hmem with h | h
        · exact h
        · exact absurd h hr
      subst hij
      rw [foldl_set_get_not_mem g rest _ i hr, List.getElem?_set_self',
        List.getElem?_eq_getElem hlen]
      rfl

theorem runSchedule_perm (job : Nat → Entry) (n : Nat) (order : List Nat)
    (hp : order.Perm (List.range n)) :
    runSchedule job n order = (List.range n).map (fun i => some (job i)) := by
  apply List.ext_getElem?
  intro i
  by_cases hi : i < n
  · have hmem : i ∈ order := hp.mem_iff.mpr (List.mem_range.mpr hi)
    rw [runSchedule, foldl_set_get_mem _ _ _ _ hmem (by simpa using hi),
      List.getElem?_map, List.getElem?_range hi]
    rfl
  · have h1 : (runSchedule job n order).length = n := by
      rw [runSchedule, foldl_set_length]; simp
    rw [List.getElem?_eq_none (by rw [h1]; omega),
      List.getElem?_eq_none (by simp; omega)]

theorem reduceOption_map_some {α : Type} :
    ∀ l : List α, (l.map some).reduceOption = l
  | [] => rfl
  | a :: l => by
    rw [List.map_cons, List.reduceOption_cons_of_some, reduceOption_map_some l]

theorem range_map_getD {α β : Type} (d : α) (g : α → β) :
    ∀ l : List α, (List.range l.length).map (fun i => g (l.getD i d)) = l.map g
  | [] => rfl
  | a :: l => by
    rw [List.length_cons, List.range_succ_eq_map, List.map_cons, List.map_map,
      List.map_cons]
    simp only [Function.comp, List.getD_cons_zero, List.getD_cons_succ]
    exact congrArg _ (range_map_getD d g l)

theorem par_eq_seq (B : MSMBackend) (d : List DTraj) (l : List Int) (k : Int)
    (b : Bool) (j : Int) (m : CountingMode) (order : List Nat)
    (hp : order.Perm (List.range l.length)) :
    implied_timescales_msm_par B d l k b j order m =
      implied_timescales_msm B d l k b j m := by
  rw [implied_timescales_msm_par, implied_timescales_msm]
  cases hv : validate d l k j with
  | some e => rfl
  | none =>
    simp only
    have he : (runSchedule (fun i => processLag B d m k.toNat b (l.getD i 0))
        l.length order).reduceOption = l.map (processLag B d m k.toNat b) := by
      rw [runSchedule_perm _ _ _ hp]
      have hm : (List.range l.length).map
            (fun i => some (processLag B d m k.toNat b (l.getD i 0))) =
          ((List.range l.length).map
            (fun i => processLag B d m k.toNat b (l.getD i 0))).map some := by
        rw [List.map_map]; rfl
      rw [hm, reduceOption_map_some, range_map_getD]
    rw [he]

theorem validate_jobs_pos (d : List DTraj) (l : List Int) (k : Int) {j : Int}
    (hj : 0 < j) : validate d l k j = validate d l k 1 := by
  rw [validate, validate]
  have h1 : ¬ (j ≤ 0) := by omega
  have h2 : ¬ ((1 : Int) ≤ 0) := by omega
  simp only [if_neg h1, if_neg h2]

theorem specBackend_spec : BackendSpec specBackend := by
  constructor
  · intro cm k
    simp [specBackend]
  · intro cm k
    apply List.Pairwise.chain'
    rw [specBackend]
    simp only
    rw [List.pairwise_map, List.pairwise_iff_getElem]
    intro a b ha hb hab
    rw [List.length_range] at ha hb
    simp only [List.getElem_range]
    have hbn : b < cm.states.length - 1 :=
      lt_of_lt_of_le hb (min_le_right _ _)
    have hsub : cm.states.length - b < cm.states.length - a := by omega
    exact_mod_cast hsub
  · intro cm k t ht
    rw [specBackend] at ht
    simp only [List.mem_map, List.mem_range] at ht
    obtain ⟨r, hr, rfl⟩ := ht
    have hrn : r < cm.states.length - 1 := lt_of_lt_of_le hr (min_le_right _ _)
    have hpos : 0 < cm.states.length - r := by omega
    exact_mod_cast hpos
  · intro cm k
    simp [specBackend]
  · intro cm k s hs
    rw [specBackend] at hs
    simp only [List.mem_map, List.mem_range] at hs
    obtain ⟨r, hr, rfl⟩ := hs
    constructor
    · show ((cm.states.length - r - 1 : Nat) : ℚ) ≤ ((cm.states.length - r : Nat) : ℚ)
      exact_mod_cast Nat.sub_le (cm.states.length - r) 1
    · show ((cm.states.length - r : Nat) : ℚ) ≤ ((cm.states.length - r + 1 : Nat) : ℚ)
      exact_mod_cast Nat.le_succ (cm.states.length - r)

/-- C1: for every valid input (the sweep returning a result), one entry per
input lag time, the result has the same length as the input lag-time list,
and entry `i` corresponds to input lag time `i`, for every concurrency width
and worker completion order. -/
theorem sweep_length_order_preserved (B : MSMBackend) (d : List DTraj)
    (l : List Int) (k : Int) (b : Bool) (j : Int) (order : List Nat)
    (m : CountingMode) (res : List Entry)
    (hp : order.Perm (List.range l.length))
    (h : implied_timescales_msm_par B d l k b j order m = .ok res) :
    res.length = l.length ∧
      ∀ (i : Nat) (L : Int), l[i]? = some L →
        ∃ e, res[i]? = some e ∧ e.lagtime = L ∧
          e = processLag B d m k.toNat b L := by
  rw [par_eq_seq B d l k b j m order hp] at h
  obtain ⟨-, hres, -⟩ := implied_ok B d l k b j m res h
  subst hres
  refine ⟨by simp, ?_⟩
  intro i L hi
  refine ⟨processLag B d m k.toNat b L, ?_, processLag_lagtime B d m k.toNat b L, rfl⟩
  rw [List.getElem?_map, hi]
  rfl

/-- C1 witness: concrete instance of the order-preservation theorem. -/
theorem sweep_length_order_preserved_witness :
    ([(⟨1, [2], none, none⟩ : Entry)]).length = ([(1 : Int)]).length :=
  (sweep_length_order_preserved specBackend [[0, 1, 1, 0]] [1] 1 false 1 [0]
    .sliding [⟨1, [2], none, none⟩]
    (by simp [List.range_succ]) rfl).1

/-- C5: running the sweep with any worker count greater than 1, under any
worker completion order, returns exactly the same result as running it
sequentially with worker count 1. -/
theorem sweep_det_concurrency (B : MSMBackend) (d : List DTraj) (l : List Int)
    (k : Int) (b : Bool) (m : CountingMode) (j : Int) (order : List Nat)
    (hj : 1 < j) (hp : order.Perm (List.range l.length)) :
    implied_timescales_msm_par B d l k b j order m =
      implied_timescales_msm B d l k b 1 m := by
  rw [par_eq_seq B d l k b j m order hp, implied_timescales_msm,
    implied_timescales_msm, validate_jobs_pos d l k (by omega)]

/-- C5 witness: the sweep with 2 workers equals the sweep with 1 worker at a
concrete input. -/
theorem sweep_det_concurrency_witness :
    implied_timescales_msm_par specBackend [[0, 1, 1, 0]] [1] 1 false 2 [0]
      .sliding =
    implied_timescales_msm specBackend [[0, 1, 1, 0]] [1] 1 false 1 .sliding :=
  sweep_det_concurrency specBackend [[0, 1, 1, 0]] [1] 1 false .sliding 2 [0]
    (by omega) (by simp [List.range_succ])

/-- C8: the counting mode is an exposed parameter of the sweep whose default
is sliding-window counting; under the default, every lag time's entry is the
one built from the sliding count model. -/
theorem counting_mode_default_sliding (B : MSMBackend) (d : List DTraj)
    (l : List Int) (k : Int) (b : Bool) (j : Int) :
    implied_timescales_msm B d l k b j =
      implied_timescales_msm B d l k b j .sliding ∧
    ∀ (res : List Entry) (i : Nat) (L : Int),
      implied_timescales_msm B d l k b j = .ok res → l[i]? = some L →
      res[i]? = some (processLag B d .sliding k.toNat b L) := by
  refine ⟨rfl, ?_⟩
  intro res i L h hi
  obtain ⟨-, hres, -⟩ := implied_ok B d l k b j .sliding res h
  subst hres
  rw [List.getElem?_map, hi]
  rfl

/-- C8 witness: at a concrete input with no counting mode given, the entry
is the sliding-mode entry. -/
theorem counting_mode_default_sliding_witness :
    ([(⟨1, [2], none, none⟩ : Entry)])[0]? =
      some (processLag specBackend [[0, 1, 1, 0]] .sliding (1 : Int).toNat false 1) :=
  (counting_mode_default_sliding specBackend [[0, 1, 1, 0]] [1] 1 false 1).2
    [⟨1, [2], none, none⟩] 0 1 rfl rfl

/-- C9: the sweep leaves the caller-owned trajectories and lag-time list
unchanged, writes only the freshly computed result, and each entry is a
function of the trajectories and its own lag time alone (no intermediate
objects shared across lag times). -/
theorem sweep_frame (B : MSMBackend) (k : Int) (b : Bool) (j : Int)
    (m : CountingMode) (σ : SweepState) :
    (runSweep B k b j m σ).trajectories = σ.trajectories ∧
    (runSweep B k b j m σ).lagtimes = σ.lagtimes ∧
    (runSweep B k b j m σ).result =
      some (implied_timescales_msm B σ.trajectories σ.lagtimes k b j m) ∧
    ∀ (res : List Entry) (i : Nat) (L : Int),
      implied_timescales_msm B σ.trajectories σ.lagtimes k b j m = .ok res →
      σ.lagtimes[i]? = some L →
      res[i]? = some (processLag B σ.trajectories m k.toNat b L) := by
  refine ⟨rfl, rfl, rfl, ?_⟩
  intro res i L h hi
  obtain ⟨-, hres, -⟩ := implied_ok _ _ _ _ _ _ _ _ h
  subst hres
  rw [List.getElem?_map, hi]
  rfl

/-- C9 witness: the sweep run on a concrete state leaves the trajectories
unchanged. -/
theorem sweep_frame_witness :
    (runSweep specBackend 1 false 1 .sliding
      ⟨[[0, 1, 1, 0]], [1], none⟩).trajectories = [[0, 1, 1, 0]] :=
  (sweep_frame specBackend 1 false 1 .sliding ⟨[[0, 1, 1, 0]], [1], none⟩).1

/-- C10 counterexample: on trajectories `[[0,1,1,0],[0]]` with lag list
`[1,2]` the full sweep has an entry for lag 2 (a failure entry), but the
sweep on the singleton lag list `[2]` raises a total-failure error and
produces no entry at all, so the sweep entry cannot equal "the single entry
of the singleton sweep". -/
theorem sweep_singleton_cex :
    implied_timescales_msm specBackend [[0, 1, 1, 0], [0]] [1, 2] 1 false 1
        .sliding =
      .ok [⟨1, [2], none, none⟩, ⟨2, [], none, some .lagExceedsData⟩] ∧
    implied_timescales_msm specBackend [[0, 1, 1, 0], [0]] [2] 1 false 1
        .sliding =
      .error (.allLagsFailed [(2, .lagExceedsData)]) :=
  ⟨rfl, rfl⟩

/-- C10 amended: whenever the sweep on the singleton lag list `[lags[i]]`
does return a single entry, the full sweep's entry `i` equals it; and
duplicate lag values in the list always produce equal entries. -/
theorem sweep_singleton_consistency (B : MSMBackend) (d : List DTraj)
    (l : List Int) (k : Int) (b : Bool) (j : Int) (m : CountingMode)
    (res : List Entry)
    (hfull : implied_timescales_msm B d l k b j m = .ok res) :
    (∀ (i : Nat) (L : Int) (e : Entry), l[i]? = some L →
        implied_timescales_msm B d [L] k b j m = .ok [e] → res[i]? = some e) ∧
    (∀ (i i' : Nat) (L : Int), l[i]? = some L → l[i']? = some L →
        res[i]? = res[i']?) := by
  obtain ⟨-, hres, -⟩ := implied_ok _ _ _ _ _ _ _ _ hfull
  subst hres
  constructor
  · intro i L e hi hsingle
    obtain ⟨-, hsres, -⟩ := implied_ok _ _ _ _ _ _ _ _ hsingle
    simp only [List.map_cons, List.map_nil] at hsres
    injection hsres with he htail
    rw [List.getElem?_map, hi, he]
    rfl
  · intro i i' L hi hi'
    rw [List.getElem?_map, List.getElem?_map, hi, hi']

/-- C10 witness: concrete instance of the amended singleton-consistency
theorem, at a lag list with a duplicate lag value. -/
theorem sweep_singleton_consistency_witness :
    ([(⟨1, [2], none, none⟩ : Entry), ⟨1, [2], none, none⟩])[0]? =
      some (⟨1, [2], none, none⟩ : Entry) :=
  (sweep_singleton_consistency specBackend [[0, 1, 1, 0]] [1, 1] 1 false 1
    .sliding [⟨1, [2], none, none⟩, ⟨1, [2], none, none⟩] rfl).1
    0 1 ⟨1, [2], none, none⟩ rfl rfl

/-- C2 counterexample: on trajectories `[[0,1,1,0],[0]]` at lag 2 the count
model restricted to its largest connected component retains 2 states, so the
claim demands `min 1 (2-1) = 1` timescale; but lag 2 exceeds the shortest
trajectory length, so the sweep's entry reports zero timescales with a
failure reason. -/
theorem sweep_min_k_length_cex :
    implied_timescales_msm specBackend [[0, 1, 1, 0], [0]] [1, 2] 1 false 1
        .sliding =
      .ok [⟨1, [2], none, none⟩, ⟨2, [], none, some .lagExceedsData⟩] ∧
    ((countModelAt [[0, 1, 1, 0], [0]] .sliding 2).submodel_largest).states.length
        = 2 ∧
    (⟨2, [], none, some .lagExceedsData⟩ : Entry).its.length ≠
      min (1 : Int).toNat
        (((countModelAt [[0, 1, 1, 0], [0]]
          .sliding 2).submodel_largest).states.length - 1) :=
  ⟨rfl, rfl, by decide⟩

/-- C2 amended: for every lag time whose entry did not fail for insufficient
trajectory length, the number of returned timescales is `min k (n - 1)`,
with `n` the state count of the largest connected component of that lag's
count model (lag times exceeding the shortest trajectory yield a
zero-timescale failure entry instead). -/
theorem sweep_min_k_length_amended (B : MSMBackend) (d : List DTraj)
    (l : List Int) (k : Int) (b : Bool) (j : Int) (m : CountingMode)
    (res : List Entry) (i : Nat) (L : Int) (e : Entry)
    (hB : BackendSpec B)
    (h : implied_timescales_msm B d l k b j m = .ok res)
    (hi : l[i]? = some L) (hres : res[i]? = some e)
    (hf : e.failure ≠ some .lagExceedsData) :
    e.its.length =
      min k.toNat
        (((countModelAt d m L.toNat).submodel_largest).states.length - 1) := by
  obtain ⟨-, hr, -⟩ := implied_ok _ _ _ _ _ _ _ _ h
  subst hr
  rw [List.getElem?_map, hi] at hres
  simp only [Option.map_some'] at hres
  injection hres with he
  subst he
  by_cases h1 : shortestLen d < L.toNat
  · simp [processLag, h1] at hf
  · by_cases h2 :
        ((countModelAt d m L.toNat).submodel_largest).states.length < 2
    · have hits : (processLag B d m k.toNat b L).its = [] := by
        simp [processLag, h1, h2]
      rw [hits]
      simp only [List.length_nil]
      omega
    · rw [processLag_not_failed B d m k.toNat b L h1 h2]
      exact hB.ts_length _ _

/-- C2 witness: concrete instance of the amended length theorem. -/
theorem sweep_min_k_length_witness :
    (⟨1, [2], none, none⟩ : Entry).its.length =
      min (1 : Int).toNat
        (((countModelAt [[0, 1, 1, 0]]
          .sliding (1 : Int).toNat).submodel_largest).states.length - 1) :=
  sweep_min_k_length_amended specBackend [[0, 1, 1, 0]] [1] 1 false 1 .sliding
    [⟨1, [2], none, none⟩] 0 1 ⟨1, [2], none, none⟩ specBackend_spec rfl rfl rfl
    (by decide)

/-- C3: the sweep errors exactly when an input-validation precondition is
violated or every lag time fails; a lag time that individually fails yields
a zero-timescale entry with a recorded reason while the sweep completes. -/
theorem sweep_error_iff (B : MSMBackend) (d : List DTraj) (l : List Int)
    (k : Int) (b : Bool) (j : Int) (m : CountingMode) :
    (isError (implied_timescales_msm B d l k b j m) = true ↔
      (validate d l k j).isSome = true ∨
        ∀ L ∈ l, (processLag B d m k.toNat b L).failure.isSome = true) ∧
    (∀ (res : List Entry) (i : Nat) (L : Int),
      implied_timescales_msm B d l k b j m = .ok res → l[i]? = some L →
      (processLag B d m k.toNat b L).failure.isSome = true →
      res[i]? = some (processLag B d m k.toNat b L) ∧
        (processLag B d m k.toNat b L).its = []) := by
  constructor
  · constructor
    · intro herr
      cases hv : validate d l k j with
      | some e => exact Or.inl rfl
      | none =>
        right
        by_cases hall : (l.map (processLag B d m k.toNat b)).all
            (fun e => e.failure.isSome) = true
        · intro L hL
          exact List.all_eq_true.mp hall _ (List.mem_map_of_mem _ hL)
        · exfalso
          rw [implied_timescales_msm, hv] at herr
          simp only at herr
          rw [if_neg hall] at herr
          simp [isError] at herr
    · intro hd
      cases hv : validate d l k j with
      | some e => rw [implied_timescales_msm, hv]; rfl
      | none =>
        rcases hd with hv' | hall
        · rw [hv] at hv'; exact absurd hv' (by simp)
        · have hall2 : (l.map (processLag B d m k.toNat b)).all
              (fun e => e.failure.isSome) = true := by
            rw [List.all_eq_true]
            intro e he
            obtain ⟨L, hL, rfl⟩ := List.mem_map.mp he
            exact hall L hL
          rw [implied_timescales_msm, hv]
          simp only
          rw [if_pos hall2]
          rfl
  · intro res i L h hi hfail
    obtain ⟨-, hr, -⟩ := implied_ok _ _ _ _ _ _ _ _ h
    subst hr
    rw [List.getElem?_map, hi]
    exact ⟨rfl, processLag_failed_its B d m k.toNat b L hfail⟩

/-- C3 witness: an empty lag-time list makes the sweep error out. -/
theorem sweep_error_iff_witness :
    isError (implied_timescales_msm specBackend [[0, 1, 1, 0]] [] 1 false 1
      .sliding) = true :=
  (sweep_error_iff specBackend [[0, 1, 1, 0]] [] 1 false 1 .sliding).1.mpr
    (Or.inl rfl)

/-- C4 counterexample: at lag 2 on trajectories `[[0,1,1,0],[0]]` the
reference notebook pipeline returns one timescale (the restricted count
model keeps 2 connected states), but the sweep's length check makes its
entry report zero timescales, so the sweep does not equal the reference
pipeline per lag time. -/
theorem sweep_refines_notebook_cex :
    implied_timescales_msm specBackend [[0, 1, 1, 0], [0]] [1, 2] 1 false 1
        .sliding =
      .ok [⟨1, [2], none, none⟩, ⟨2, [], none, some .lagExceedsData⟩] ∧
    notebookTimescaleSweep specBackend [[0, 1, 1, 0], [0]] [1, 2] 1 =
      [[2], [2]] ∧
    (⟨2, [], none, some .lagExceedsData⟩ : Entry).its ≠ [(2 : ℚ)] :=
  ⟨rfl, rfl, by decide⟩

/-- C4 amended: with `bayesian = false` and worker count 1, for every lag
time not exceeding the shortest trajectory length, the sweep entry's
timescales equal the reference notebook pipeline (sliding count model,
largest connected component, maximum-likelihood MSM, first `k`
timescales). -/
theorem sweep_refines_notebook (B : MSMBackend) (d : List DTraj) (l : List Int)
    (k : Int) (res : List Entry) (i : Nat) (L : Int)
    (hB : BackendSpec B)
    (h : implied_timescales_msm B d l k false 1 .sliding = .ok res)
    (hi : l[i]? = some L) (hlen : L.toNat ≤ shortestLen d) :
    Option.map Entry.its res[i]? =
      (notebookTimescaleSweep B d l k.toNat)[i]? := by
  obtain ⟨-, hr, -⟩ := implied_ok _ _ _ _ _ _ _ _ h
  subst hr
  rw [List.getElem?_map, hi, notebookTimescaleSweep, List.getElem?_map, hi]
  simp only [Option.map_some']
  congr 1
  have h1 : ¬ shortestLen d < L.toNat := by omega
  by_cases h2 :
      ((countModelAt d .sliding L.toNat).submodel_largest).states.length < 2
  · have hts : B.timescales
        ((countModelAt d .sliding L.toNat).submodel_largest) k.toNat = [] := by
      have hl := hB.ts_length
        ((countModelAt d .sliding L.toNat).submodel_largest) k.toNat
      have hz : min k.toNat
          (((countModelAt d .sliding L.toNat).submodel_largest).states.length
            - 1) = 0 := by omega
      rw [hz] at hl
      exact List.length_eq_zero.mp hl
    simp [processLag, h1, h2, hts]
  · rw [processLag_not_failed B d .sliding k.toNat false L h1 h2]

/-- C4 witness: concrete instance of the amended refinement theorem. -/
theorem sweep_refines_notebook_witness :
    Option.map Entry.its (([(⟨1, [2], none, none⟩ : Entry)])[0]?) =
      (notebookTimescaleSweep specBackend [[0, 1, 1, 0]] [1] (1 : Int).toNat)[0]? :=
  sweep_refines_notebook specBackend [[0, 1, 1, 0]] [1] 1
    [⟨1, [2], none, none⟩] 0 1 specBackend_spec rfl rfl (by decide)

/-- C6: within every entry of the sweep result, the timescales are strictly
decreasing (all positive, so magnitude order coincides), and at most
`n - 1` of them are returned — the stationary, infinite timescale is never
among the (finite, positive rational) returned values. -/
theorem sweep_timescales_decreasing (B : MSMBackend) (d : List DTraj)
    (l : List Int) (k : Int) (b : Bool) (j : Int) (m : CountingMode)
    (res : List Entry) (e : Entry)
    (hB : BackendSpec B)
    (h : implied_timescales_msm B d l k b j m = .ok res) (he : e ∈ res) :
    List.Chain' (· > ·) e.its ∧ (∀ t ∈ e.its, 0 < t) ∧
      e.its.length ≤
        ((countModelAt d m e.lagtime.toNat).submodel_largest).states.length
          - 1 := by
  obtain ⟨-, hr, -⟩ := implied_ok _ _ _ _ _ _ _ _ h
  subst hr
  obtain ⟨L, hL, rfl⟩ := List.mem_map.mp he
  rw [processLag_lagtime]
  by_cases h1 : shortestLen d < L.toNat
  · simp [processLag, h1]
  · by_cases h2 :
        ((countModelAt d m L.toNat).submodel_largest).states.length < 2
    · simp [processLag, h1, h2]
    · rw [processLag_not_failed B d m k.toNat b L h1 h2]
      refine ⟨hB.ts_sorted _ _, fun t ht => hB.ts_pos _ _ t ht, ?_⟩
      rw [hB.ts_length]
      exact min_le_right _ _

/-- C6 witness: concrete instance of the strict-decrease theorem. -/
theorem sweep_timescales_decreasing_witness :
    List.Chain' (· > ·) (⟨1, [2], none, none⟩ : Entry).its :=
  (sweep_timescales_decreasing specBackend [[0, 1, 1, 0]] [1] 1 false 1
    .sliding [⟨1, [2], none, none⟩] ⟨1, [2], none, none⟩ specBackend_spec rfl
    (List.mem_singleton_self _)).1

/-- C7: in Bayesian mode, every rank of every entry's statistics satisfies
lower bound ≤ central estimate ≤ upper bound. -/
theorem sweep_bayes_bounds (B : MSMBackend) (d : List DTraj) (l : List Int)
    (k : Int) (j : Int) (m : CountingMode) (res : List Entry) (e : Entry)
    (st : ℚ × ℚ × ℚ)
    (hB : BackendSpec B)
    (h : implied_timescales_msm B d l k true j m = .ok res)
    (he : e ∈ res) (hst : st ∈ e.bayesStats.getD []) :
    st.1 ≤ st.2.1 ∧ st.2.1 ≤ st.2.2 := by
  obtain ⟨-, hr, -⟩ := implied_ok _ _ _ _ _ _ _ _ h
  subst hr
  obtain ⟨L, hL, rfl⟩ := List.mem_map.mp he
  by_cases h1 : shortestLen d < L.toNat
  · simp [processLag, h1] at hst
  · by_cases h2 :
        ((countModelAt d m L.toNat).submodel_largest).states.length < 2
    · simp [processLag, h1, h2] at hst
    · rw [processLag_not_failed B d m k.toNat true L h1 h2] at hst
      exact hB.bayes_bounds _ _ st (by simpa using hst)

/-- C7 witness: concrete instance of the Bayesian bounds theorem. -/
theorem sweep_bayes_bounds_witness : (1 : ℚ) ≤ 2 ∧ (2 : ℚ) ≤ 3 :=
  sweep_bayes_bounds specBackend [[0, 1, 1, 0]] [1] 1 1 .sliding
    [⟨1, [2], some [(1, 2, 3)], none⟩] ⟨1, [2], some [(1, 2, 3)], none⟩
    (1, 2, 3) specBackend_spec rfl (List.mem_singleton_self _) (by decide)

end ImpliedTimescales
